import Mathlib

/-!
Verification of the `voyager` RAITH VOYAGER positionlist package against its
natural-language specification.  The Python sources (`voyager/pls.py`,
`voyager/_helpers.py`, `voyager/wor.py`) are shallowly embedded below:
pandas `DataFrame` rows become a `List Row`, the cell dictionary becomes an
association list, machine floats become `ℚ` (and `ℝ` for the trigonometric
rotation), fallible operations return `Except`/`Option`.
-/

namespace Voyager

/-! ### Helpers from `voyager/_helpers.py` -/

/-- Embedding of `numpy.sign` on a scalar. -/
def npSign (x : ℚ) : ℚ := if 0 < x then 1 else if x < 0 then -1 else 0

/-- Embedding of `_helpers.rounderupper` (scalar case):
`np.sign(x) * np.ceil(10**n * np.abs(x)) / 10**n`. -/
def rounderupper (x : ℚ) (n : ℕ) : ℚ :=
  npSign x * (⌈(10 : ℚ) ^ n * |x|⌉ : ℤ) / 10 ^ n

/-- Embedding of `_helpers.func_n`: apply `func` to `x`, `n` times
(`for i in range(n): x = func(x)`). -/
def func_n (f : ℚ → ℚ) : ℕ → ℚ → ℚ
  | 0, x => x
  | n + 1, x => func_n f n (f x)

/-- Embedding of `_helpers.distMatrix`: the Manhattan-distance matrix of the
`(U,V)` coordinate array, represented as an index function. -/
def distMatrix (arr : List (ℚ × ℚ)) (i j : ℕ) : ℚ :=
  |(arr.getD i (0, 0)).1 - (arr.getD j (0, 0)).1| +
    |(arr.getD i (0, 0)).2 - (arr.getD j (0, 0)).2|

/-- Embedding of `_helpers.dist`:
`sum([matrix[path[i], path[i+1]] for i in range(len(path)-1)])`. -/
def dist (matrix : ℕ → ℕ → ℚ) (path : List ℕ) : ℚ :=
  ((List.range (path.length - 1)).map
    (fun i => matrix (path.getD i 0) (path.getD (i + 1) 0))).sum

/-- Value of `np.sum(series.diff())` for a pandas series: the leading `NaN` of
`diff()` is skipped by the pandas sum, leaving the sum of consecutive
(signed) differences. -/
def diffSum (xs : List ℚ) : ℚ := (List.zipWith (fun a b => b - a) xs xs.tail).sum

/-- Sum of absolute consecutive differences; this is what the specification's
`writingTime` description asks for (for comparison with `diffSum`). -/
def diffAbsSum (xs : List ℚ) : ℚ :=
  (List.zipWith (fun a b => |b - a|) xs xs.tail).sum

/-! ### Generic list helper lemmas -/

theorem getD_append_left {α : Type} (l l' : List α) (n : ℕ) (d : α)
    (h : n < l.length) : (l ++ l').getD n d = l.getD n d := by
  induction l generalizing n with
  | nil => simp at h
  | cons a t ih =>
    cases n with
    | zero => rfl
    | succ m => simpa using ih m (by simpa using h)

theorem getD_eq_getElem_of_lt {α : Type} (l : List α) (n : ℕ) (d : α)
    (h : n < l.length) : l.getD n d = l[n] := by
  induction l generalizing n with
  | nil => simp at h
  | cons a t ih =>
    cases n with
    | zero => rfl
    | succ m => simpa using ih m (by simpa using h)

/-! ### Positionlist data model (`voyager/pls.py`)

A positionlist row keeps the columns that the verified operations touch;
the remaining sparsely-populated metadata columns are carried unchanged by
every operation below and are therefore omitted. -/

/-- A rectangle `(left, bottom, right, top)`, as stored in the `Area` column
and in working areas. -/
structure Rect where
  left : ℚ
  bottom : ℚ
  right : ℚ
  top : ℚ
deriving DecidableEq, Repr

instance : Inhabited Rect := ⟨⟨0, 0, 0, 0⟩⟩

/-- Apply a scalar function to all four components (numpy elementwise op). -/
def mapRect (f : ℚ → ℚ) (r : Rect) : Rect := ⟨f r.left, f r.bottom, f r.right, f r.top⟩

/-- One row of the positionlist DataFrame (the columns the verified
operations read or write). -/
structure Row where
  u : ℚ
  v : ℚ
  comment : String
  dose : ℚ
  layer : List ℕ
  file : Option String
  area : Option Rect
deriving DecidableEq, Repr

instance : Inhabited Row := ⟨⟨0, 0, "", 1, [], none, none⟩⟩

/-- External geometry adapter: the only capability `writingArea` uses is
`cell.area(True)`, a dictionary from `(layer, datatype)` keys to areas. -/
structure Cell where
  areas : List ((ℕ × ℕ) × ℚ)
deriving DecidableEq, Repr

/-- Dictionary lookup `self.cells[name]` (rows under verification always
reference present cells, so the default is never reached there). -/
def lookupCell (cells : List (String × Cell)) (name : String) : Cell :=
  (cells.lookup name).getD ⟨[]⟩

/-- Embedding of `Positionlist.writingArea`: for every row, sum the per-layer
areas of the referenced cell restricted to the row's layers, weighting each
contribution by `1 + weighted*(DoseFactor-1)`. -/
def writingArea (rows : List Row) (cells : List (String × Cell)) (weighted : Bool) : ℚ :=
  (rows.map (fun r =>
    ((lookupCell cells r.comment).areas.map (fun p =>
      if p.1.1 ∈ r.layer then
        p.2 * (1 + (if weighted then (1 : ℚ) else 0) * (r.dose - 1))
      else 0)).sum)).sum

/-- Embedding of `Positionlist.writingTime`:
`s = df.loc[0,'U'] + df.loc[0,'V'] + np.sum(df['U'].diff()) + np.sum(df['V'].diff())`
and `2.5*len(df) + writingArea(weighted=True)*1e-14*AreaDose/BeamCurrent + s*5.5/10`. -/
def writingTime (rows : List Row) (cells : List (String × Cell))
    (BeamCurrent AreaDose : ℚ) : ℚ :=
  let s := (rows.headI).u + (rows.headI).v +
    diffSum (rows.map Row.u) + diffSum (rows.map Row.v)
  2.5 * rows.length +
    writingArea rows cells true * 1e-14 * AreaDose / BeamCurrent + s * 5.5 / 10

/-- Modelled from the spec's words (claim C6), for comparison with
`writingTime`: the stage-travel proxy as the spec describes it, namely the sum
of ABSOLUTE consecutive differences in `u` and `v` plus the first entry's own
`u + v` offset from the origin. -/
def writingTimeClaimed (rows : List Row) (cells : List (String × Cell))
    (BeamCurrent AreaDose : ℚ) : ℚ :=
  let s := (rows.headI).u + (rows.headI).v +
    diffAbsSum (rows.map Row.u) + diffAbsSum (rows.map Row.v)
  2.5 * rows.length +
    writingArea rows cells true * 1e-14 * AreaDose / BeamCurrent + s * 5.5 / 10

/-! ### `Positionlist.remove` with CPython dict-iteration semantics -/

/-- Row dropping `self.df.drop(index=self.df.query(selection).index)`:
the rows matching the selection are removed. -/
def removeRows (rows : List Row) (sel : Row → Bool) : List Row :=
  rows.filter (fun r => !(sel r))

/-- The CPython runtime error raised when a dict changes size while being
iterated. -/
def dictErr : String := "RuntimeError: dictionary changed size during iteration"

/-- The pruning loop of `Positionlist.remove`:
`for i in self.cells.keys(): if i not in comments: del self.cells[i]`.
CPython dict iterators record the dict's size at creation and raise
`RuntimeError` on every subsequent `next()` once the size has changed, so the
loop deletes at most one key and then fails (the `mutated` flag models the
size change; the final `next()` that would raise `StopIteration` performs the
same size check first). -/
def pruneLoop (comments : List String) :
    List String → List (String × Cell) → Bool → Except String (List (String × Cell))
  | [], cells, mutated => if mutated then .error dictErr else .ok cells
  | k :: rest, cells, mutated =>
    if mutated then .error dictErr
    else if k ∈ comments then pruneLoop comments rest cells false
    else pruneLoop comments rest (cells.filter (fun p => p.1 ≠ k)) true

/-- Embedding of `Positionlist.remove`: drop the selected rows, then run the
cell-map pruning loop over the original key view. -/
def remove (rows : List Row) (cells : List (String × Cell)) (sel : Row → Bool) :
    Except String (List Row × List (String × Cell)) :=
  let rows2 := removeRows rows sel
  match pruneLoop (rows2.map Row.comment) (cells.map Prod.fst) cells false with
  | .error e => .error e
  | .ok cells2 => .ok (rows2, cells2)

/-! ### `Positionlist.write` -/

/-- Error raised when a row has no assigned file. -/
def fileErr : String :=
  "There are entries with an unassigned file. Use voyager.Positionlist.assignFile() first."

/-- Error raised when a row has no defined area. -/
def areaErr : String :=
  "There are entries of cells without a definded area present. Use voyager.Positionlist.updateArea() before writing."

/-- Embedding of `_helpers.pls_header`: the fixed header/columns text for the
two presentation profiles (the column-width tables are abstracted into the
returned text, which the verified claims do not inspect); any other view name
makes the source raise (`ValueException` is undefined, so a `NameError`). -/
def pls_header (view : String) : Except String String :=
  if view = "default" ∨ view = "minimal" then
    .ok "[HEADER] FORMAT=IXYZRTUVWATC [COLUMNS] [DATA] "
  else .error "NameError: name ValueException is not defined"

/-- CSV rendering of one data row (representative columns; the verified
claims only inspect whether output is produced, not its text). -/
def rowCsv (r : Row) : String :=
  toString r.u ++ "," ++ toString r.v ++ "," ++ r.comment

/-- Embedding of `Positionlist.write`: raise if any row has a null `File`,
then if any row has a null `Area`; only then serialize header plus data.
Both checks precede the `open(filename, "w")`, so a precondition failure
produces no output and leaves the positionlist unchanged. -/
def plsWrite (rows : List Row) (view : String) : Except String String :=
  if rows.any (fun r => r.file.isNone) then .error fileErr
  else if rows.any (fun r => r.area.isNone) then .error areaErr
  else
    match pls_header view with
    | .error e => .error e
    | .ok h => .ok (h ++ String.intercalate " " (rows.map rowCsv))

/-! ### `Positionlist.matrixCopy` -/

/-- The labels returned by `self.df.query(selection).index` (with the default
`RangeIndex`, labels coincide with positions into the current row list). -/
def selIndices (rows : List Row) (sel : Row → Bool) : List ℕ :=
  (List.range rows.length).filter (fun k => sel (rows.getD k default))

/-- The body of the innermost `matrixCopy` loop applied to a source row `r`:
append a copy, then shift `U`/`V` by `i*row_vector + j*column_vector` and set
`DoseFactor = func_n(dose_change, i*size[1]+j, r.dose)`. -/
def copyRow (size : ℕ × ℕ) (rv cv : ℚ × ℚ) (dc : ℚ → ℚ) (i j : ℕ) (r : Row) : Row :=
  { r with
    u := r.u + i * rv.1 + j * cv.1,
    v := r.v + i * rv.2 + j * cv.2,
    dose := func_n dc (i * size.2 + j) r.dose }

/-- Embedding of `Positionlist.matrixCopy`: the selection's labels are fixed
before the loops; then for each grid cell `(i,j)` other than `(0,0)` and each
label `k`, a transformed copy of `self.df.iloc[k]` (read from the CURRENT,
growing frame, exactly as the source does) is appended. -/
def matrixCopy (rows : List Row) (size : ℕ × ℕ) (rv cv : ℚ × ℚ)
    (dc : ℚ → ℚ) (sel : Row → Bool) : List Row :=
  let indices := selIndices rows sel
  (List.range size.1).foldl (fun df i =>
    (List.range size.2).foldl (fun df j =>
      if (i, j) = ((0 : ℕ), (0 : ℕ)) then df
      else indices.foldl
        (fun df k => df ++ [copyRow size rv cv dc i j (df.getD k default)]) df) df)
    rows

/-- Modelled from the spec's words (claim C7), for comparison with
`matrixCopy`: the batch of new rows it promises — one copy of each selected
row for every grid cell `(i,j)` except `(0,0)`, in row-major order, offset by
`i*row_vector + j*column_vector`, with `dose_change` applied `i*cols + j`
times to the original row's dose factor. -/
def matrixCopyNewRowsSpec (rows : List Row) (size : ℕ × ℕ) (rv cv : ℚ × ℚ)
    (dc : ℚ → ℚ) (sel : Row → Bool) : List Row :=
  (List.range size.1).flatMap (fun i =>
    (List.range size.2).flatMap (fun j =>
      if (i, j) = ((0 : ℕ), (0 : ℕ)) then []
      else (selIndices rows sel).map (fun k => copyRow size rv cv dc i j (rows.getD k default))))

/-! ### `Positionlist.shortSort` (simulated annealing) -/

/-- One random draw of the annealing loop: the two sampled positions and the
outcome of the Metropolis comparison `np.exp((old-new)/T) > random.random()`
in the genuinely random case `old < new`.  When `new <= old` the comparison
always succeeds, since then `exp((old-new)/T) >= 1 > random() ∈ [0,1)`; the
loop below hard-codes that case and only consults `accept` otherwise. -/
structure Draw where
  i : ℕ
  j : ℕ
  accept : Bool

/-- Error message of `random.sample(range(n), 2)` when `n < 2`. -/
def sampleErr : String := "ValueError: Sample larger than population or is negative"

/-- Embedding of `random.sample(range(n), 2)`: fails when the population is
smaller than the sample size, otherwise returns the two drawn positions. -/
def sample2 (n i j : ℕ) : Except String (ℕ × ℕ) :=
  if n < 2 then .error sampleErr else .ok (i, j)

/-- The candidate path of one annealing iteration:
`newPath = path.copy(); newPath[i], newPath[j] = newPath[j], newPath[i]`. -/
def swapPath (path : List ℕ) (i j : ℕ) : List ℕ :=
  (path.set i (path.getD j 0)).set j (path.getD i 0)

/-- Embedding of the `while T > 1` annealing loop of `Positionlist.shortSort`.
`fuel` bounds the number of modelled iterations (the source loop always
terminates because `T` decays geometrically; every theorem below supplies
enough fuel for the loop to exit through its own `T <= 1` test). -/
def annealLoop (M : ℕ → ℕ → ℚ) (c : ℚ) (n : ℕ) (draws : ℕ → Draw) :
    ℕ → ℚ → ℕ → List ℕ → Except String (List ℕ)
  | 0, _, _, path => .ok path
  | fuel + 1, T, step, path =>
    if 1 < T then
      match sample2 n (draws step).i (draws step).j with
      | .error e => .error e
      | .ok ij =>
        let newPath := swapPath path ij.1 ij.2
        let path2 := if dist M newPath ≤ dist M path then newPath
          else if (draws step).accept then newPath else path
        annealLoop M c n draws fuel (T * (1 - c)) (step + 1) path2
    else .ok path

/-- `self.df.reindex(path).reset_index(drop=True)`: pick rows by label in
path order. -/
def reindex (rows : List Row) (path : List ℕ) : List Row :=
  path.map (fun k => rows.getD k default)

/-- Embedding of `Positionlist.shortSort`.  `p0` is the initial
`random.sample(range(len(self)), len(self))` permutation and `draws` the
stream of per-iteration random outcomes; `T` starts at `2*len(self)`. -/
def shortSort (rows : List Row) (p0 : List ℕ) (draws : ℕ → Draw)
    (fuel : ℕ) (coolingRate : ℚ) : Except String (List Row) :=
  match annealLoop (distMatrix (rows.map (fun r => (r.u, r.v)))) coolingRate
      rows.length draws fuel (2 * rows.length) 0 p0 with
  | .error e => .error e
  | .ok path => .ok (reindex rows path)

/-! ### `Positionlist.rotate`

Rotation acts on the `U`/`V` columns only, so it is modelled on the list of
`(u, v)` pairs of the rows, over `ℝ` because the source calls `np.cos`/`np.sin`
on the angle. -/

/-- The `reference` argument of `Positionlist.rotate`. -/
inductive Reference where
  | origin
  | corner
  | center
  | point (p : ℝ × ℝ)

/-- `np.min` over a list (the selections in the verified claims are
non-empty, matching the source, where `np.min` of an empty selection is
an error). -/
noncomputable def listMin (l : List ℝ) : ℝ := l.foldr min l.headI

/-- `np.max` over a list. -/
noncomputable def listMax (l : List ℝ) : ℝ := l.foldr max l.headI

/-- Pivot resolution of `Positionlist.rotate`: `origin` is `(0,0)`, `corner`
the componentwise minimum of the selection, `center` the midpoint of min and
max, a tuple is used as given. -/
noncomputable def resolvePivot : Reference → List (ℝ × ℝ) → ℝ × ℝ
  | .origin, _ => (0, 0)
  | .corner, pts => (listMin (pts.map Prod.fst), listMin (pts.map Prod.snd))
  | .center, pts =>
      ((listMin (pts.map Prod.fst) + listMax (pts.map Prod.fst)) / 2,
       (listMin (pts.map Prod.snd) + listMax (pts.map Prod.snd)) / 2)
  | .point p, _ => p

/-- The per-point transform of `Positionlist.rotate` exactly as the source
performs it: `U` is overwritten first (line 228 of pls.py) and the new `V`
(line 229) is computed from the ALREADY OVERWRITTEN `u2`, not from the
pre-rotation `u1`. -/
noncomputable def rotatePoint (angle tx ty : ℝ) (p : ℝ × ℝ) : ℝ × ℝ :=
  let u1 := p.1 - tx
  let v1 := p.2 - ty
  let u2 := Real.cos angle * u1 - Real.sin angle * v1
  let v2 := Real.sin angle * u2 + Real.cos angle * v1
  (u2 + tx, v2 + ty)

/-- Modelled from the spec's words (claim C1), for comparison with
`rotatePoint`: the standard simultaneous 2D rotation, whose rotated `v` uses
the PRE-rotation `u`. -/
noncomputable def rotatePointSpec (angle tx ty : ℝ) (p : ℝ × ℝ) : ℝ × ℝ :=
  let u1 := p.1 - tx
  let v1 := p.2 - ty
  let u2 := Real.cos angle * u1 - Real.sin angle * v1
  let v2 := Real.sin angle * u1 + Real.cos angle * v1
  (u2 + tx, v2 + ty)

/-- Embedding of `Positionlist.rotate` on the `(u, v)` pairs of the rows:
resolve the pivot from the selection, then transform every selected point. -/
noncomputable def rotate (angle : ℝ) (reference : Reference) (sel : ℝ × ℝ → Bool)
    (pts : List (ℝ × ℝ)) : List (ℝ × ℝ) :=
  let pivot := resolvePivot reference (pts.filter sel)
  pts.map (fun p => if sel p then rotatePoint angle pivot.1 pivot.2 p else p)

/-! ### Working areas (`voyager/wor.py`) -/

/-- Embedding of class `WA`: the per-cell list of working-area rectangles and
the index of the active one. -/
structure WA where
  wa_list : List Rect
  name : String
  active : ℕ
deriving DecidableEq, Repr

/-- Embedding of `WA.__init__(name, working_area)`. -/
def WA.init (name : String) (working_area : Rect) : WA :=
  ⟨[working_area], name, 0⟩

/-- Embedding of `WA.add`: append and make the appended rectangle active
(`self.active = len(self.wa_list) - 1`). -/
def WA.add (w : WA) (working_area : Rect) : WA :=
  { w with
    wa_list := w.wa_list ++ [working_area],
    active := (w.wa_list ++ [working_area]).length - 1 }

/-- Embedding of `WA.delete`: `del self.wa_list[num]`, and only if the deleted
index was the active one, `self.active = len(self.wa_list) - 1`. -/
def WA.delete (w : WA) (num : ℕ) : WA :=
  let l := w.wa_list.eraseIdx num
  { w with wa_list := l, active := if w.active = num then l.length - 1 else w.active }

/-- An `add`/`delete` call on a working-area set. -/
inductive WAOp where
  | add (r : Rect)
  | delete (num : ℕ)

/-- Apply one operation. -/
def WA.applyOp (w : WA) : WAOp → WA
  | .add r => w.add r
  | .delete num => w.delete num

/-- Apply a sequence of operations in order. -/
def WA.applyOps (w : WA) (ops : List WAOp) : WA :=
  ops.foldl WA.applyOp w

/-- The operation sequences for which the amended claim C2 asserts the
active-index invariant: every delete removes the currently active index and
leaves the set in existence (pre-delete length at least 2, matching
`WorkingAreas.delete`, which removes the whole cell record instead of calling
`WA.delete` when only one rectangle remains). -/
def okOps (w : WA) : List WAOp → Bool
  | [] => true
  | op :: rest =>
    (match op with
     | .add _ => true
     | .delete num => decide (num = w.active) && decide (2 ≤ w.wa_list.length)) &&
      okOps (w.applyOp op) rest

/-- Embedding of class `WorkingAreas`: insertion-ordered cell dictionary plus
the GDSII database unit. -/
structure WorkingAreas where
  cells : List (String × WA)
  unit : ℚ
deriving DecidableEq, Repr

/-- Embedding of `WorkingAreas.add` (name already resolved from the cell):
update the existing `WA` in place or create a fresh record. -/
def WorkingAreas.add (reg : WorkingAreas) (name : String) (working_area : Rect) :
    WorkingAreas :=
  if (reg.cells.lookup name).isSome then
    { reg with cells := reg.cells.map (fun p =>
        if p.1 = name then (p.1, p.2.add working_area) else p) }
  else
    { reg with cells := reg.cells ++ [(name, WA.init name working_area)] }

/-- One line of a `.wor` file, at the granularity `WorkingAreas.write` emits
and `read_wor` scans: the bracketed cell-name line, the scaled
`WorkingArea=` line, the `ActiveWA=` line and the numbered `WorkingAreaJ=`
lines. -/
inductive WorLine where
  | header (name : String)
  | plainWA (r : Rect)
  | activeLine (n : ℕ)
  | numWA (idx : ℕ) (r : Rect)
deriving DecidableEq, Repr

/-- Decimal rounding performed by `np.array2string(arr, precision=3)` on the
numbered working-area lines. -/
def round3 (x : ℚ) : ℚ := round (x * 1000) / 1000

/-- Insertion of a string into a sorted list (helper for `sorted(self.cells)`). -/
def insertSorted (s : String) : List String → List String
  | [] => [s]
  | t :: rest => if s ≤ t then s :: t :: rest else t :: insertSorted s rest

/-- Embedding of Python `sorted` on the cell names. -/
def sortStrings : List String → List String
  | [] => []
  | s :: rest => insertSorted s (sortStrings rest)

/-- The numbered `WorkingAreaJ=` lines: `for j, arr in enumerate(wa_list)`. -/
def numberedLines : ℕ → List Rect → List WorLine
  | _, [] => []
  | j, r :: rest => .numWA j (mapRect round3 r) :: numberedLines (j + 1) rest

/-- The block `WorkingAreas.write` emits for one cell: the `[name]` line, the
active rectangle scaled by `1e-6/unit` and rounded up to 2 decimals, the
`ActiveWA=` line, then every rectangle at 3-decimal precision. -/
def blockLines (unit : ℚ) (wa : WA) : List WorLine :=
  [.header wa.name,
   .plainWA (mapRect (fun q => rounderupper (q * (1 / 10 ^ 6) / unit) 2)
      (wa.wa_list.getD wa.active default)),
   .activeLine wa.active] ++ numberedLines 0 wa.wa_list

/-- Embedding of `WorkingAreas.write`: cells are written in sorted-name
order. -/
def WorkingAreas.writeLines (reg : WorkingAreas) : List WorLine :=
  (sortStrings (reg.cells.map Prod.fst)).flatMap (fun n =>
    match reg.cells.lookup n with
    | some wa => blockLines reg.unit wa
    | none => [])

/-- Position and name of the first `[`-bracketed cell-name line at index
`pos` or later (`text.find('[', begin)`). -/
def findHeaderFromAux : List WorLine → ℕ → Option (ℕ × String)
  | [], _ => none
  | .header n :: _, idx => some (idx, n)
  | _ :: rest, idx => findHeaderFromAux rest (idx + 1)

/-- Find the first header line at index `pos` or later. -/
def findHeaderFrom (lines : List WorLine) (pos : ℕ) : Option (ℕ × String) :=
  findHeaderFromAux (lines.drop pos) pos

/-- Value of the first `ActiveWA=` line at index `pos` or later
(`text.find('ActiveWA=', begin)`). -/
def findActiveFrom (lines : List WorLine) (pos : ℕ) : Option ℕ :=
  (lines.drop pos).findSome? (fun l =>
    match l with
    | .activeLine n => some n
    | _ => none)

/-- Rectangle of the first `WorkingArea<idx>=` line at index `pos` or later
(`text.find('WorkingArea' + ActiveWA + '=', begin)`). -/
def findNumWAFrom (lines : List WorLine) (pos : ℕ) (idx : ℕ) : Option Rect :=
  (lines.drop pos).findSome? (fun l =>
    match l with
    | .numWA j r => if j = idx then some r else none
    | _ => none)

/-- The scanning loop of `read_wor`.  Crucially, after processing a block the
source sets `begin = stop + 1`, i.e. just past the `]` of the CELL-NAME line —
NOT past the block — so the `ActiveWA=` and `WorkingArea<n>=` searches of the
next iteration start before the current block's own data lines.  `fuel`
bounds the iteration count (the cursor strictly increases, so
`lines.length + 1` iterations always suffice). -/
def read_wor_go (lines : List WorLine) :
    ℕ → ℕ → WorkingAreas → Option WorkingAreas
  | 0, _, acc => some acc
  | fuel + 1, pos, acc =>
    match findHeaderFrom lines pos with
    | none => some acc
    | some hn =>
      match findActiveFrom lines pos with
      | none => none
      | some a =>
        match findNumWAFrom lines pos a with
        | none => none
        | some r => read_wor_go lines fuel (hn.1 + 1) (acc.add hn.2 r)

/-- Embedding of `read_wor`: scan the file for bracketed cell blocks,
building a fresh registry (with the default unit `1e-9`) via
`WorkingAreas.add`. -/
def read_wor (lines : List WorLine) : Option WorkingAreas :=
  read_wor_go lines (lines.length + 1) 0 ⟨[], 1 / 10 ^ 9⟩

/-! ### Claim C9: `rounderupper` -/

theorem ceil_1231_div_10 : ⌈(1231 : ℚ) / 10⌉ = 124 := by
  rw [Int.ceil_eq_iff]
  norm_num

/-- Claim C9: for every rational `x`, `round_up(x) = sign(x) * ceil(|x| * 100) / 100`
at precision 2; in particular `round_up(1.231) = 1.24` and
`round_up(-1.231) = -1.24` (sign-preserving ceiling away from zero). -/
theorem rounderupper_correct :
    (∀ x : ℚ, rounderupper x 2 = npSign x * (⌈|x| * 100⌉ : ℤ) / 100)
    ∧ rounderupper (1231 / 1000) 2 = 124 / 100
    ∧ rounderupper (-(1231 / 1000)) 2 = -(124 / 100) := by
  have habs : ((10 : ℚ) ^ 2 * |(1231 : ℚ) / 1000|) = 1231 / 10 := by
    rw [abs_of_pos (by norm_num)]
    norm_num
  have habs2 : ((10 : ℚ) ^ 2 * |(-((1231 : ℚ) / 1000))|) = 1231 / 10 := by
    rw [abs_of_neg (by norm_num)]
    norm_num
  refine ⟨fun x => ?_, ?_, ?_⟩
  · unfold rounderupper
    rw [mul_comm ((10 : ℚ) ^ 2) |x|]
    norm_num
  · unfold rounderupper npSign
    rw [habs, ceil_1231_div_10, if_pos (by norm_num)]
    norm_num
  · unfold rounderupper npSign
    rw [habs2, ceil_1231_div_10, if_neg (by norm_num), if_pos (by norm_num)]
    norm_num

/-! ### Claim C8: `Positionlist.write` preconditions -/

/-- Claim C8: `write` fails with the unassigned-file error as soon as some
row has `File == None`, otherwise with the undefined-area error as soon as
some row has `Area == None` — in both cases before any output is produced
(the `Except.error` result carries no serialized text and the model is pure,
matching the source, where both checks precede `open(filename, "w")`) — and
when every row has both defined it writes the header and data sections. -/
theorem write_precondition_correct (rows : List Row) (view : String) :
    ((∃ r ∈ rows, r.file = none) → plsWrite rows view = .error fileErr)
    ∧ ((∀ r ∈ rows, r.file ≠ none) → (∃ r ∈ rows, r.area = none) →
        plsWrite rows view = .error areaErr)
    ∧ ((∀ r ∈ rows, r.file ≠ none ∧ r.area ≠ none) →
        (view = "default" ∨ view = "minimal") →
        ∃ s, plsWrite rows view = .ok s) := by
  refine ⟨?_, ?_, ?_⟩
  · rintro ⟨r, hr, hf⟩
    have h1 : rows.any (fun r => r.file.isNone) = true :=
      List.any_eq_true.mpr ⟨r, hr, by simp [hf]⟩
    simp [plsWrite, h1]
  · intro hall hex
    obtain ⟨r, hr, ha⟩ := hex
    have h1 : rows.any (fun r => r.file.isNone) = false := by
      rw [List.any_eq_false]
      intro r hr
      simpa [Option.isNone_iff_eq_none] using hall r hr
    have h2 : rows.any (fun r => r.area.isNone) = true :=
      List.any_eq_true.mpr ⟨r, hr, by simp [ha]⟩
    simp [plsWrite, h1, h2]
  · intro hall hview
    have h1 : rows.any (fun r => r.file.isNone) = false := by
      rw [List.any_eq_false]
      intro r hr
      simpa [Option.isNone_iff_eq_none] using (hall r hr).1
    have h2 : rows.any (fun r => r.area.isNone) = false := by
      rw [List.any_eq_false]
      intro r hr
      simpa [Option.isNone_iff_eq_none] using (hall r hr).2
    have h3 : pls_header view =
        .ok "[HEADER] FORMAT=IXYZRTUVWATC [COLUMNS] [DATA] " := by
      unfold pls_header
      rw [if_pos hview]
    refine ⟨"[HEADER] FORMAT=IXYZRTUVWATC [COLUMNS] [DATA] " ++
      String.intercalate " " (rows.map rowCsv), ?_⟩
    simp [plsWrite, h1, h2, h3]

/-- Concrete row with no file and no area. -/
def rowNoFile : Row := ⟨0, 0, "c", 1, [0], none, none⟩

/-- Concrete fully-assigned row. -/
def rowOk : Row := ⟨0, 0, "c", 1, [0], some "f.gds", some ⟨0, 0, 1, 1⟩⟩

/-- Witness for C8: on a one-row list without a file, `write` fails with the
file error; on a fully assigned row it succeeds. -/
theorem write_precondition_correct_witness :
    plsWrite [rowNoFile] "default" = .error fileErr
    ∧ (∃ s, plsWrite [rowOk] "default" = .ok s) :=
  ⟨(write_precondition_correct [rowNoFile] "default").1
      ⟨rowNoFile, by simp, by simp [rowNoFile]⟩,
   (write_precondition_correct [rowOk] "default").2.2
      (by intro r hr; simp at hr; simp [hr, rowOk]) (Or.inl rfl)⟩

/-! ### Claim C4: `Positionlist.remove` cell-map pruning -/

/-- Concrete row referencing cell `"X"`, layer 0. -/
def rowX : Row := ⟨0, 0, "X", 1, [0], none, none⟩

/-- Second concrete row referencing cell `"X"`, no layers. -/
def rowX2 : Row := ⟨5, 0, "X", 1, [], none, none⟩

/-- Concrete cell record for `"X"`. -/
def cellX : Cell := ⟨[]⟩

/-- Claim C4 (code bug): removing the only row that references cell `"X"`
does delete `"X"` from the cell map, but the deletion happens inside
`for i in self.cells.keys()`, so CPython raises
`RuntimeError: dictionary changed size during iteration` instead of
completing; when at least one remaining row still references `"X"`, no
deletion happens and the operation completes with `"X"` kept. -/
theorem remove_prune_runtime_error_eval :
    remove [rowX] [("X", cellX)] (fun _ => true) = .error dictErr
    ∧ remove [rowX, rowX2] [("X", cellX)] (fun r => r.layer.contains 0)
        = .ok ([rowX2], [("X", cellX)]) := by
  constructor
  · simp [remove, removeRows, pruneLoop, rowX, cellX]
  · simp [remove, removeRows, pruneLoop, rowX, rowX2, cellX]

/-! ### Claim C2: working-area active-index invariant -/

/-- Concrete working-area rectangle A. -/
def rectA : Rect := ⟨1, 2, 3, 4⟩

/-- Concrete working-area rectangle B. -/
def rectB : Rect := ⟨5, 6, 7, 8⟩

/-- Concrete working-area rectangle C. -/
def rectC : Rect := ⟨9, 10, 11, 12⟩

/-- Counterexample to claim C2 as stated: after adding rectangles A, B, C
(`active = 2`, the last index), deleting the NON-active index 0 leaves
`active = 2` while the list now has only 2 elements, so `active` is NOT a
valid index even though the set still exists. -/
theorem wa_active_invariant_counterexample :
    ¬ (((((WA.init "c" rectA).add rectB).add rectC).delete 0).active <
        ((((WA.init "c" rectA).add rectB).add rectC).delete 0).wa_list.length) := by
  simp [WA.init, WA.add, WA.delete]

/-- Invariant preservation for the restricted operation sequences of the
amended claim C2. -/
theorem wa_applyOps_invariant (ops : List WAOp) :
    ∀ w : WA, w.active < w.wa_list.length → okOps w ops = true →
      (WA.applyOps w ops).active < (WA.applyOps w ops).wa_list.length := by
  induction ops with
  | nil =>
    intro w hw _
    simpa [WA.applyOps] using hw
  | cons op rest ih =>
    intro w hw hok
    simp only [okOps, Bool.and_eq_true] at hok
    have hstep : (w.applyOp op).active < (w.applyOp op).wa_list.length := by
      cases op with
      | add r => simp [WA.applyOp, WA.add]
      | delete num =>
        have h1 := hok.1
        simp only [Bool.and_eq_true, decide_eq_true_eq] at h1
        obtain ⟨hnum, hlen⟩ := h1
        have hlt : num < w.wa_list.length := hnum ▸ hw
        have hlen' : (w.wa_list.eraseIdx num).length = w.wa_list.length - 1 := by
          rw [List.length_eraseIdx]
          simp [hlt]
        simp only [WA.applyOp, WA.delete]
        rw [if_pos hnum.symm, hlen']
        omega
    have hfold : WA.applyOps w (op :: rest) = WA.applyOps (w.applyOp op) rest := by
      simp [WA.applyOps]
    rw [hfold]
    exact ih _ hstep hok.2

/-- Claim C2 (corrected): the unrestricted invariant fails (deleting a
non-active index below the last-index active leaves `active` out of range, see
the counterexample), but it holds for every sequence of adds and
active-index deletes that leave the set in existence; moreover adding a
rectangle makes it active (the new last index), deleting the active index
resets `active` to the new last index, and after adding A, B, C in order
`active = 2` and deleting index 2 sets `active = 1`. -/
theorem wa_active_invariant_amended :
    (∀ (w : WA) (ops : List WAOp), w.active < w.wa_list.length → okOps w ops = true →
        0 < (WA.applyOps w ops).wa_list.length ∧
        (WA.applyOps w ops).active < (WA.applyOps w ops).wa_list.length)
    ∧ (∀ (w : WA) (r : Rect), (w.add r).active = w.wa_list.length ∧
        (w.add r).active < (w.add r).wa_list.length)
    ∧ (∀ w : WA, w.active < w.wa_list.length → 2 ≤ w.wa_list.length →
        (w.delete w.active).active = w.wa_list.length - 2 ∧
        (w.delete w.active).active < (w.delete w.active).wa_list.length)
    ∧ (((WA.init "c" rectA).add rectB).add rectC).active = 2
    ∧ ((((WA.init "c" rectA).add rectB).add rectC).delete 2).active = 1 := by
  refine ⟨?_, ?_, ?_, ?_, ?_⟩
  · intro w ops hw hok
    have h := wa_applyOps_invariant ops w hw hok
    exact ⟨by omega, h⟩
  · intro w r
    constructor <;> simp [WA.add]
  · intro w hw hlen
    have hlen' : (w.wa_list.eraseIdx w.active).length = w.wa_list.length - 1 := by
      rw [List.length_eraseIdx]
      simp [hw]
    constructor <;>
      · simp [WA.delete, hlen']
        omega
  · simp [WA.init, WA.add]
  · simp [WA.init, WA.add, WA.delete]

/-- Witness for C2: a concrete run of the amended invariant — starting from
a single rectangle aggregate, adding B (active becomes 1) and then deleting
the active index 1 keeps `active` a valid index of a non-empty list. -/
theorem wa_active_invariant_amended_witness :
    ((WA.init "c" rectA).active < (WA.init "c" rectA).wa_list.length
      ∧ okOps (WA.init "c" rectA) [WAOp.add rectB, WAOp.delete 1] = true)
    ∧ (0 < (WA.applyOps (WA.init "c" rectA) [WAOp.add rectB, WAOp.delete 1]).wa_list.length
      ∧ (WA.applyOps (WA.init "c" rectA) [WAOp.add rectB, WAOp.delete 1]).active <
          (WA.applyOps (WA.init "c" rectA) [WAOp.add rectB, WAOp.delete 1]).wa_list.length) :=
  ⟨⟨by simp [WA.init], by simp [okOps, WA.applyOp, WA.init, WA.add]⟩,
   wa_active_invariant_amended.1 (WA.init "c" rectA) [WAOp.add rectB, WAOp.delete 1]
     (by simp [WA.init]) (by simp [okOps, WA.applyOp, WA.init, WA.add])⟩

/-! ### Claim C6: `Positionlist.writingTime` -/

theorem headI_add_diffSum (xs : List ℚ) (h : xs ≠ []) :
    xs.headI + diffSum xs = xs.getLast?.getD 0 := by
  induction xs with
  | nil => exact absurd rfl h
  | cons x t ih =>
    cases t with
    | nil => simp [diffSum]
    | cons y t2 =>
      have ht : (y :: t2) ≠ [] := by simp
      have hd : diffSum (x :: y :: t2) = (y - x) + diffSum (y :: t2) := by
        simp [diffSum]
      rw [List.headI, hd, List.getLast?_cons_cons, ← ih ht]
      simp only [List.headI]
      ring

theorem getLast?_map_row (f : Row → ℚ) (l : List Row) :
    (l.map f).getLast? = l.getLast?.map f := by
  induction l with
  | nil => simp
  | cons a t ih =>
    cases t with
    | nil => simp
    | cons b t2 => simpa [List.getLast?_cons_cons] using ih

/-- Claim C6 (corrected): `writingTime` is
`2.5*n + writingArea(weighted=True)*1e-14*AreaDose/BeamCurrent + s*5.5/10`,
but the stage-travel proxy `s` sums SIGNED consecutive differences (pandas
`diff()` summed with the leading NaN skipped), not absolute ones, so the
differences telescope against the first entry's offset and `s` equals the
LAST entry's `u + v`. -/
theorem writingTime_formula_amended (rows : List Row) (cells : List (String × Cell))
    (BeamCurrent AreaDose : ℚ) (h : rows ≠ []) :
    writingTime rows cells BeamCurrent AreaDose
      = 2.5 * rows.length + writingArea rows cells true * 1e-14 * AreaDose / BeamCurrent
        + ((rows.getLast h).u + (rows.getLast h).v) * 5.5 / 10 := by
  obtain ⟨a, t, rfl⟩ := List.exists_cons_of_ne_nil h
  have hmu : (a :: t).map Row.u ≠ [] := by simp
  have hmv : (a :: t).map Row.v ≠ [] := by simp
  have hu : a.u + diffSum ((a :: t).map Row.u) = ((a :: t).getLast h).u := by
    have h1 := headI_add_diffSum ((a :: t).map Row.u) hmu
    have h2 : ((a :: t).map Row.u).headI = a.u := by simp
    rw [h2] at h1
    rw [h1, getLast?_map_row, List.getLast?_eq_getLast _ h]
    simp
  have hv : a.v + diffSum ((a :: t).map Row.v) = ((a :: t).getLast h).v := by
    have h1 := headI_add_diffSum ((a :: t).map Row.v) hmv
    have h2 : ((a :: t).map Row.v).headI = a.v := by simp
    rw [h2] at h1
    rw [h1, getLast?_map_row, List.getLast?_eq_getLast _ h]
    simp
  simp only [writingTime, List.headI]
  rw [show a.u + a.v + diffSum ((a :: t).map Row.u) + diffSum ((a :: t).map Row.v)
      = (a.u + diffSum ((a :: t).map Row.u)) + (a.v + diffSum ((a :: t).map Row.v)) by ring,
    hu, hv]

/-- Concrete three-entry positionlist going right then back left. -/
def rows6 : List Row := [⟨0, 0, "c", 1, [], none, none⟩,
  ⟨1, 0, "c", 1, [], none, none⟩, ⟨0, 0, "c", 1, [], none, none⟩]

/-- Concrete cell map for `rows6`. -/
def cells6 : List (String × Cell) := [("c", ⟨[]⟩)]

/-- Counterexample to claim C6 as stated: for the path `(0,0) → (1,0) → (0,0)`
the code's signed-difference proxy telescopes to `0`, giving a writing time of
`7.5`, while the claimed absolute-difference formula gives `8.6`. -/
theorem writingTime_abs_diff_counterexample :
    writingTime rows6 cells6 1 0 ≠ writingTimeClaimed rows6 cells6 1 0 := by
  norm_num [writingTime, writingTimeClaimed, rows6, cells6, diffSum, diffAbsSum,
    writingArea, lookupCell]

theorem rows6_ne_nil : rows6 ≠ [] := by simp [rows6]

/-- Witness for C6: the amended formula instantiated on the concrete
three-entry positionlist. -/
theorem writingTime_formula_amended_witness :
    rows6 ≠ [] ∧
      writingTime rows6 cells6 1 0
        = 2.5 * rows6.length + writingArea rows6 cells6 true * 1e-14 * 0 / 1
          + ((rows6.getLast rows6_ne_nil).u + (rows6.getLast rows6_ne_nil).v) * 5.5 / 10 :=
  ⟨rows6_ne_nil, writingTime_formula_amended rows6 cells6 1 0 rows6_ne_nil⟩

/-! ### Claim C7: `Positionlist.matrixCopy` -/

theorem selIndices_lt (rows : List Row) (sel : Row → Bool) :
    ∀ k ∈ selIndices rows sel, k < rows.length := by
  intro k hk
  simp only [selIndices, List.mem_filter, List.mem_range] at hk
  exact hk.1

theorem foldl_copy_append (rows0 : List Row) (size : ℕ × ℕ) (rv cv : ℚ × ℚ)
    (dc : ℚ → ℚ) (i j : ℕ) :
    ∀ (ks : List ℕ) (df t : List Row), df = rows0 ++ t →
      (∀ k ∈ ks, k < rows0.length) →
      ks.foldl (fun df k => df ++ [copyRow size rv cv dc i j (df.getD k default)]) df
        = df ++ ks.map (fun k => copyRow size rv cv dc i j (rows0.getD k default)) := by
  intro ks
  induction ks with
  | nil =>
    intro df t ht hb
    simp
  | cons k ks ih =>
    intro df t ht hb
    rw [List.foldl_cons]
    have hget : df.getD k default = rows0.getD k default := by
      rw [ht]
      exact getD_append_left _ _ _ _ (hb k (by simp))
    rw [hget]
    rw [ih (df ++ [copyRow size rv cv dc i j (rows0.getD k default)])
      (t ++ [copyRow size rv cv dc i j (rows0.getD k default)])
      (by rw [ht, List.append_assoc]) (fun k hk => hb k (by simp [hk]))]
    simp

theorem foldl_extend (rows0 : List Row) (F : ℕ → List Row → List Row)
    (G : ℕ → List Row)
    (hFG : ∀ j df t, df = rows0 ++ t → F j df = df ++ G j) :
    ∀ (jl : List ℕ) (df t : List Row), df = rows0 ++ t →
      jl.foldl (fun df j => F j df) df = df ++ jl.flatMap G := by
  intro jl
  induction jl with
  | nil =>
    intro df t ht
    simp
  | cons j jl ih =>
    intro df t ht
    rw [List.foldl_cons, hFG j df t ht]
    rw [ih (df ++ G j) (t ++ G j) (by rw [ht, List.append_assoc])]
    simp

theorem matrixCopy_eq_append (rows : List Row) (size : ℕ × ℕ) (rv cv : ℚ × ℚ)
    (dc : ℚ → ℚ) (sel : Row → Bool) :
    matrixCopy rows size rv cv dc sel
      = rows ++ matrixCopyNewRowsSpec rows size rv cv dc sel := by
  have hinner : ∀ i (df t : List Row), df = rows ++ t →
      (List.range size.2).foldl (fun df j =>
        if (i, j) = ((0 : ℕ), (0 : ℕ)) then df
        else (selIndices rows sel).foldl
          (fun df k => df ++ [copyRow size rv cv dc i j (df.getD k default)]) df) df
      = df ++ (List.range size.2).flatMap (fun j =>
          if (i, j) = ((0 : ℕ), (0 : ℕ)) then []
          else (selIndices rows sel).map
            (fun k => copyRow size rv cv dc i j (rows.getD k default))) := by
    intro i
    apply foldl_extend rows
    intro j df t ht
    by_cases hij : (i, j) = ((0 : ℕ), (0 : ℕ))
    · rw [if_pos hij, if_pos hij, List.append_nil]
    · rw [if_neg hij, if_neg hij]
      exact foldl_copy_append rows size rv cv dc i j (selIndices rows sel) df t ht
        (selIndices_lt rows sel)
  have houter := foldl_extend rows
    (fun i df => (List.range size.2).foldl (fun df j =>
      if (i, j) = ((0 : ℕ), (0 : ℕ)) then df
      else (selIndices rows sel).foldl
        (fun df k => df ++ [copyRow size rv cv dc i j (df.getD k default)]) df) df)
    (fun i => (List.range size.2).flatMap (fun j =>
      if (i, j) = ((0 : ℕ), (0 : ℕ)) then []
      else (selIndices rows sel).map
        (fun k => copyRow size rv cv dc i j (rows.getD k default))))
    (fun i df t ht => hinner i df t ht)
    (List.range size.1) rows [] (by simp)
  exact houter

theorem sum_map_const_nat (l : List ℕ) (m : ℕ) :
    (l.map (fun _ => m)).sum = l.length * m := by
  induction l with
  | nil => simp
  | cons a t ih =>
    simp only [List.map_cons, List.sum_cons, List.length_cons, ih]
    ring

theorem sum_range_if_zero_row (c m : ℕ) :
    ((List.range (c + 1)).map (fun j =>
      if ((0 : ℕ), j) = ((0 : ℕ), (0 : ℕ)) then 0 else m)).sum = c * m := by
  induction c with
  | zero =>
    rw [show List.range 1 = [0] from by rw [List.range_succ]; simp]
    simp
  | succ c ih =>
    rw [List.range_succ, List.map_append, List.sum_append, ih]
    simp only [List.map_cons, List.map_nil, List.sum_cons, List.sum_nil]
    rw [if_neg (by simp)]
    ring

theorem sum_range_if_pos_row (i c m : ℕ) (hi : i ≠ 0) :
    ((List.range c).map (fun j =>
      if (i, j) = ((0 : ℕ), (0 : ℕ)) then 0 else m)).sum = c * m := by
  have he : ∀ j : ℕ, (if (i, j) = ((0 : ℕ), (0 : ℕ)) then 0 else m) = m := by
    intro j
    rw [if_neg]
    simp [Prod.ext_iff, hi]
  rw [List.map_congr_left (fun j _ => he j), sum_map_const_nat]
  simp

theorem length_matrixCopyNewRowsSpec (rows : List Row) (size : ℕ × ℕ)
    (rv cv : ℚ × ℚ) (dc : ℚ → ℚ) (sel : Row → Bool) (h : 1 ≤ size.1 * size.2) :
    (matrixCopyNewRowsSpec rows size rv cv dc sel).length
      = (selIndices rows sel).length * (size.1 * size.2 - 1) := by
  obtain ⟨r, c⟩ := size
  simp only at h ⊢
  have hr : r ≠ 0 := by
    intro h0
    rw [h0] at h
    simp at h
  have hc : c ≠ 0 := by
    intro h0
    rw [h0] at h
    simp at h
  obtain ⟨r2, rfl⟩ := Nat.exists_eq_succ_of_ne_zero hr
  obtain ⟨c2, rfl⟩ := Nat.exists_eq_succ_of_ne_zero hc
  set m := (selIndices rows sel).length with hm
  have hlen : ∀ (i j : ℕ), (if (i, j) = ((0 : ℕ), (0 : ℕ)) then ([] : List Row)
      else (selIndices rows sel).map
        (fun k => copyRow (r2 + 1, c2 + 1) rv cv dc i j (rows.getD k default))).length
      = if (i, j) = ((0 : ℕ), (0 : ℕ)) then 0 else m := by
    intro i j
    by_cases hij : (i, j) = ((0 : ℕ), (0 : ℕ))
    · rw [if_pos hij, if_pos hij]
      rfl
    · rw [if_neg hij, if_neg hij, List.length_map]
  have hLi : ∀ i : ℕ, ((List.range (c2 + 1)).flatMap (fun j =>
      if (i, j) = ((0 : ℕ), (0 : ℕ)) then ([] : List Row)
      else (selIndices rows sel).map
        (fun k => copyRow (r2 + 1, c2 + 1) rv cv dc i j (rows.getD k default)))).length
      = if i = 0 then c2 * m else (c2 + 1) * m := by
    intro i
    rw [List.length_flatMap]
    simp only [Function.comp_def]
    rw [List.map_congr_left (fun j _ => hlen i j)]
    by_cases hi : i = 0
    · rw [if_pos hi, hi]
      exact sum_range_if_zero_row c2 m
    · rw [if_neg hi]
      exact sum_range_if_pos_row i (c2 + 1) m hi
  unfold matrixCopyNewRowsSpec
  rw [List.length_flatMap]
  simp only [Function.comp_def]
  rw [List.map_congr_left (fun i _ => hLi i)]
  rw [List.range_succ_eq_map, List.map_cons, List.sum_cons, if_pos rfl, List.map_map]
  have he : ∀ x : ℕ, ((fun i => if i = 0 then c2 * m else (c2 + 1) * m) ∘ Nat.succ) x
      = (c2 + 1) * m := by
    intro x
    simp [Function.comp]
  rw [List.map_congr_left (fun x _ => he x), sum_map_const_nat]
  simp only [List.length_range]
  have hid : (r2 + 1) * (c2 + 1) - 1 = r2 * c2 + r2 + c2 := by
    have h2 : (r2 + 1) * (c2 + 1) = r2 * c2 + r2 + c2 + 1 := by ring
    omega
  rw [hid]
  ring

/-- Claim C7: for every selection and every grid with `rows*cols >= 1`,
`matrixCopy` appends exactly `m * (rows*cols - 1)` new rows — one transformed
copy of each of the `m` selected rows per grid cell `(i,j)` other than
`(0,0)`, offset by `i*row_vector + j*column_vector` with `dose_change`
applied `i*cols + j` times to the original dose factor (the appended batch
coincides with the spec-described `matrixCopyNewRowsSpec`). -/
theorem matrixCopy_count_correct (rows : List Row) (size : ℕ × ℕ) (rv cv : ℚ × ℚ)
    (dc : ℚ → ℚ) (sel : Row → Bool) (h : 1 ≤ size.1 * size.2) :
    matrixCopy rows size rv cv dc sel
        = rows ++ matrixCopyNewRowsSpec rows size rv cv dc sel
    ∧ (matrixCopy rows size rv cv dc sel).length
        = rows.length + (selIndices rows sel).length * (size.1 * size.2 - 1) := by
  refine ⟨matrixCopy_eq_append rows size rv cv dc sel, ?_⟩
  rw [matrixCopy_eq_append rows size rv cv dc sel, List.length_append,
    length_matrixCopyNewRowsSpec rows size rv cv dc sel h]

/-- Witness for C7: the spec's own example — `size=(2,3)` on a 1-row
selection yields `1*2*3 - 1 = 5` new rows, 6 in total. -/
theorem matrixCopy_count_correct_witness :
    1 ≤ (2 : ℕ) * 3 ∧
      (matrixCopy [rowOk] (2, 3) (0, 4) (3, 0) (fun x => x + 1 / 10)
        (fun _ => true)).length = 6 := by
  refine ⟨by norm_num, ?_⟩
  have h := (matrixCopy_count_correct [rowOk] (2, 3) (0, 4) (3, 0)
    (fun x => x + 1 / 10) (fun _ => true) (by norm_num)).2
  rw [h]
  norm_num [selIndices]

/-! ### Claims C5 and C10: `Positionlist.shortSort` -/

theorem getD_cons_set_perm (t : List ℕ) (m : ℕ) (x : ℕ) (hm : m < t.length) :
    List.Perm (t.getD m 0 :: t.set m x) (x :: t) := by
  induction t generalizing m with
  | nil => simp at hm
  | cons c t ih =>
    cases m with
    | zero =>
      simpa using List.Perm.swap x c t
    | succ m =>
      have hm' : m < t.length := by simpa using hm
      have h1 : List.Perm (t.getD m 0 :: c :: t.set m x) (c :: t.getD m 0 :: t.set m x) :=
        List.Perm.swap c (t.getD m 0) (t.set m x)
      have h2 : List.Perm (c :: t.getD m 0 :: t.set m x) (c :: x :: t) :=
        (ih m hm').cons c
      have h3 : List.Perm (c :: x :: t) (x :: c :: t) := List.Perm.swap x c t
      simpa using (h1.trans h2).trans h3

theorem swapPath_perm (l : List ℕ) (i j : ℕ) (hi : i < l.length) (hj : j < l.length) :
    List.Perm (swapPath l i j) l := by
  induction l generalizing i j with
  | nil => simp at hi
  | cons a t ih =>
    unfold swapPath
    cases i with
    | zero =>
      cases j with
      | zero =>
        simp only [List.getD_cons_zero, List.set_cons_zero]
        exact List.Perm.refl _
      | succ m =>
        have hm : m < t.length := by simpa using hj
        simpa using getD_cons_set_perm t m a hm
    | succ n =>
      have hn : n < t.length := by simpa using hi
      cases j with
      | zero =>
        simpa using getD_cons_set_perm t n a hn
      | succ m =>
        have hm : m < t.length := by simpa using hj
        have h := (ih n m hn hm).cons a
        simpa [swapPath] using h

theorem annealLoop_perm (M : ℕ → ℕ → ℚ) (c : ℚ) (n : ℕ) (draws : ℕ → Draw)
    (hdraws : ∀ s, (draws s).i < n ∧ (draws s).j < n) :
    ∀ (fuel : ℕ) (T : ℚ) (step : ℕ) (path out : List ℕ),
      List.Perm path (List.range n) →
      annealLoop M c n draws fuel T step path = .ok out →
      List.Perm out (List.range n) := by
  intro fuel
  induction fuel with
  | zero =>
    intro T step path out hp hout
    simp only [annealLoop, Except.ok.injEq] at hout
    exact hout ▸ hp
  | succ fuel ih =>
    intro T step path out hp hout
    simp only [annealLoop] at hout
    by_cases hT : 1 < T
    · rw [if_pos hT] at hout
      by_cases hn : n < 2
      · simp only [sample2, if_pos hn] at hout
        exact absurd hout (by simp)
      · simp only [sample2, if_neg hn] at hout
        have hlen : path.length = n := by
          rw [hp.length_eq, List.length_range]
        have hperm2 : List.Perm (swapPath path (draws step).i (draws step).j) path :=
          swapPath_perm path _ _ (by rw [hlen]; exact (hdraws step).1)
            (by rw [hlen]; exact (hdraws step).2)
        have hp2 : List.Perm (if dist M (swapPath path (draws step).i (draws step).j)
              ≤ dist M path then swapPath path (draws step).i (draws step).j
            else if (draws step).accept then
              swapPath path (draws step).i (draws step).j
            else path) (List.range n) := by
          split
          · exact hperm2.trans hp
          · split
            · exact hperm2.trans hp
            · exact hp
        exact ih (T * (1 - c)) (step + 1) _ out hp2 hout
    · rw [if_neg hT] at hout
      simp only [Except.ok.injEq] at hout
      exact hout ▸ hp

theorem reindex_range_eq (rows : List Row) :
    reindex rows (List.range rows.length) = rows := by
  apply List.ext_getElem
  · simp [reindex]
  · intro i h1 h2
    simp only [reindex, List.getElem_map, List.getElem_range]
    exact getD_eq_getElem_of_lt rows i default h2

/-- Claim C5 (corrected): whenever `shortSort` returns (the sampled positions
being in range, as `random.sample` guarantees), the resulting row sequence is
a permutation of the original rows — same multiset, no duplicates or drops —
regardless of the initial random permutation, the random draws and the
cooling rate.  The 2-entry order-preservation part of the original claim is
false (see the counterexample): the initial path is itself a uniformly random
permutation, so the two rows can come back swapped. -/
theorem shortSort_perm_amended (rows : List Row) (p0 : List ℕ) (draws : ℕ → Draw)
    (fuel : ℕ) (c : ℚ) (out : List Row)
    (hinit : List.Perm p0 (List.range rows.length))
    (hdraws : ∀ s, (draws s).i < rows.length ∧ (draws s).j < rows.length)
    (hout : shortSort rows p0 draws fuel c = .ok out) :
    List.Perm out rows := by
  unfold shortSort at hout
  split at hout
  · exact absurd hout (by simp)
  · rename_i path hal
    simp only [Except.ok.injEq] at hout
    have hperm := annealLoop_perm _ c rows.length draws hdraws fuel _ 0 p0 path hinit hal
    have h2 : List.Perm (reindex rows path) (reindex rows (List.range rows.length)) :=
      List.Perm.map _ hperm
    rw [reindex_range_eq] at h2
    exact hout ▸ h2

/-- Concrete first row for the `shortSort` evaluations. -/
def rowP : Row := ⟨0, 0, "a", 1, [], none, none⟩

/-- Concrete second row for the `shortSort` evaluations. -/
def rowQ : Row := ⟨1, 1, "b", 1, [], none, none⟩

/-- The random stream always sampling positions 0 and 1 (with the Metropolis
test accepting; for two entries the distance is unchanged by the swap, so the
source accepts every such move with probability one anyway). -/
def draws5 : ℕ → Draw := fun _ => ⟨0, 1, true⟩

/-- Counterexample to the 2-entry part of claim C5: with the initial random
permutation `[1, 0]` (drawn with probability 1/2 by `random.sample`) and a
cooling rate of `1/2` (two iterations, both forced accepts that cancel out),
`shortSort` returns the two rows in swapped order. -/
theorem shortSort_two_entry_counterexample :
    shortSort [rowP, rowQ] [1, 0] draws5 3 (1 / 2) = .ok [rowQ, rowP]
    ∧ [rowQ, rowP] ≠ [rowP, rowQ] := by
  constructor
  · norm_num [shortSort, annealLoop, sample2, swapPath, draws5, dist, distMatrix,
      reindex, rowP, rowQ]
  · simp [rowP, rowQ]

/-- Witness for C5: a concrete terminating run (cooling rate 1, one
iteration) on two rows whose result is a permutation of the input. -/
theorem shortSort_perm_amended_witness :
    (List.Perm [1, 0] (List.range 2)
      ∧ shortSort [rowP, rowQ] [1, 0] draws5 2 1 = .ok [rowP, rowQ])
    ∧ List.Perm [rowP, rowQ] [rowP, rowQ] :=
  ⟨⟨by decide,
    by norm_num [shortSort, annealLoop, sample2, swapPath, draws5, dist, distMatrix,
      reindex, rowP, rowQ]⟩,
   shortSort_perm_amended [rowP, rowQ] [1, 0] draws5 2 1 [rowP, rowQ] (by decide)
     (fun s => ⟨by simp [draws5], by simp [draws5]⟩)
     (by norm_num [shortSort, annealLoop, sample2, swapPath, draws5, dist, distMatrix,
       reindex, rowP, rowQ])⟩

/-- Claim C10: on a 1-entry positionlist `shortSort` raises (initial
temperature `2*1 > 1`, and the very first `random.sample(range(1), 2)` fails
with a `ValueError`), while on an empty positionlist the initial temperature
is `0`, the loop body never runs, and the list is returned unchanged. -/
theorem shortSort_small_list_behaviour :
    (∀ (rows : List Row) (p0 : List ℕ) (draws : ℕ → Draw) (fuel : ℕ) (c : ℚ),
        rows.length = 1 → 1 ≤ fuel →
        shortSort rows p0 draws fuel c = .error sampleErr)
    ∧ (∀ (draws : ℕ → Draw) (fuel : ℕ) (c : ℚ),
        shortSort ([] : List Row) [] draws fuel c = .ok []) := by
  constructor
  · intro rows p0 draws fuel c hlen hfuel
    obtain ⟨f, rfl⟩ := Nat.exists_eq_succ_of_ne_zero (by omega : fuel ≠ 0)
    unfold shortSort
    rw [hlen]
    simp only [annealLoop, sample2]
    norm_num
  · intro draws fuel c
    cases fuel with
    | zero => simp [shortSort, annealLoop, reindex]
    | succ f =>
      simp only [shortSort, annealLoop, reindex]
      norm_num

/-- Witness for C10: the error on a concrete singleton positionlist and the
no-op on the concrete empty one. -/
theorem shortSort_small_list_behaviour_witness :
    (([rowP] : List Row).length = 1 ∧ 1 ≤ 1
      ∧ shortSort [rowP] [0] draws5 1 (1 / 2) = .error sampleErr)
    ∧ shortSort ([] : List Row) [] draws5 1 (1 / 2) = .ok [] :=
  ⟨⟨by simp, by norm_num,
    shortSort_small_list_behaviour.1 [rowP] [0] draws5 1 (1 / 2) (by simp) (by norm_num)⟩,
   shortSort_small_list_behaviour.2 draws5 1 (1 / 2)⟩

/-! ### Claim C1: `Positionlist.rotate` -/

/-- Claim C1 (code bug): pls.py line 229 computes the rotated `V` from the
ALREADY OVERWRITTEN `U` column, so `rotate` is not the standard rotation the
spec demands.  At angle `pi/2` about the origin the point `(1, 0)` is mapped
to `(0, 0)` (the standard rotation gives `(0, 1)`), and rotating by `pi/2`
then by `-pi/2` yields `(0, 0)`, not the original `(1, 0)` — the
rotate-then-unrotate invariant fails exactly, not merely beyond
floating-point tolerance. -/
theorem rotate_overwrites_u_bug :
    rotate (Real.pi / 2) Reference.origin (fun _ => true) [(1, 0)] = [(0, 0)]
    ∧ rotatePointSpec (Real.pi / 2) 0 0 (1, 0) = (0, 1)
    ∧ rotate (-(Real.pi / 2)) Reference.origin (fun _ => true)
        (rotate (Real.pi / 2) Reference.origin (fun _ => true) [(1, 0)]) = [(0, 0)]
    ∧ ([((0 : ℝ), (0 : ℝ))] : List (ℝ × ℝ)) ≠ [((1 : ℝ), (0 : ℝ))] := by
  have h1 : rotate (Real.pi / 2) Reference.origin (fun _ => true) [(1, 0)] = [(0, 0)] := by
    simp [rotate, rotatePoint, resolvePivot, Real.cos_pi_div_two, Real.sin_pi_div_two]
  refine ⟨h1, ?_, ?_, ?_⟩
  · simp [rotatePointSpec, Real.cos_pi_div_two, Real.sin_pi_div_two]
  · rw [h1]
    simp [rotate, rotatePoint, resolvePivot, Real.cos_pi_div_two, Real.sin_pi_div_two,
      Real.cos_neg, Real.sin_neg]
  · intro h
    simp only [List.cons.injEq, Prod.mk.injEq] at h
    exact zero_ne_one h.1.1

/-! ### Claim C3: `.wor` round trip -/

/-- Concrete registry with two cells, one rectangle each. -/
def regAB : WorkingAreas :=
  ((⟨[], 1 / 10 ^ 9⟩ : WorkingAreas).add "a" rectA).add "b" rectB

/-- Concrete registry with one cell holding two rectangles (B active). -/
def regA2 : WorkingAreas :=
  ((⟨[], 1 / 10 ^ 9⟩ : WorkingAreas).add "a" rectA).add "a" rectB

/-- Claim C3 (code bug): writing a registry and reading it back does NOT
reproduce every cell's active rectangle and active index.  `read_wor` advances
`begin` only past the `]` of the cell-name line, so from the second block on
the `ActiveWA=`/`WorkingArea<n>=` searches hit the PREVIOUS cell's lines:
cell `"b"` (whose rectangle is B) comes back with cell `"a"`'s rectangle A.
Moreover each read-back cell holds a single rectangle at index 0, so an
original active index 1 comes back as 0 (the active rectangle itself is
reproduced for the first cell). -/
theorem wor_roundtrip_bug_eval :
    read_wor (WorkingAreas.writeLines regAB)
      = some ⟨[("a", ⟨[rectA], "a", 0⟩), ("b", ⟨[rectA], "b", 0⟩)], 1 / 10 ^ 9⟩
    ∧ rectA ≠ rectB
    ∧ regAB.cells.lookup "b" = some ⟨[rectB], "b", 0⟩
    ∧ regA2.cells.lookup "a" = some ⟨[rectA, rectB], "a", 1⟩
    ∧ read_wor (WorkingAreas.writeLines regA2)
      = some ⟨[("a", ⟨[rectB], "a", 0⟩)], 1 / 10 ^ 9⟩ := by
  have hr3 : ∀ q : ℚ, q = 1 ∨ q = 2 ∨ q = 3 ∨ q = 4 ∨ q = 5 ∨ q = 6 ∨ q = 7 ∨ q = 8 →
      round3 q = q := by
    intro q hq
    rcases hq with rfl | rfl | rfl | rfl | rfl | rfl | rfl | rfl <;>
      norm_num [round3, round_eq]
  have hA : mapRect round3 rectA = rectA := by
    simp [mapRect, rectA, hr3 1 (by tauto), hr3 2 (by tauto), hr3 3 (by tauto),
      hr3 4 (by tauto)]
  have hB : mapRect round3 rectB = rectB := by
    simp [mapRect, rectB, hr3 5 (by tauto), hr3 6 (by tauto), hr3 7 (by tauto),
      hr3 8 (by tauto)]
  refine ⟨?_, ?_, ?_, ?_, ?_⟩
  · simp [read_wor, read_wor_go, findHeaderFrom, findHeaderFromAux, findActiveFrom,
      findNumWAFrom, WorkingAreas.writeLines, blockLines, numberedLines, sortStrings,
      insertSorted, WorkingAreas.add, WA.init, WA.add, List.lookup, regAB, hA, hB,
      List.findSome?]
  · simp [rectA, rectB]
  · simp [regAB, WorkingAreas.add, WA.init, WA.add, List.lookup]
  · simp [regA2, WorkingAreas.add, WA.init, WA.add, List.lookup]
  · simp [read_wor, read_wor_go, findHeaderFrom, findHeaderFromAux, findActiveFrom,
      findNumWAFrom, WorkingAreas.writeLines, blockLines, numberedLines, sortStrings,
      insertSorted, WorkingAreas.add, WA.init, WA.add, List.lookup, regA2, hA, hB,
      List.findSome?]

end Voyager
